import Mathlib

/-!
Verification of the `regexp_extract` scalar UDF and its regex cache
(`src/implementation/src/lib.rs`).

The repository code is shallowly embedded below:

* `RegexCache.get`, `extract_one` and the body of the closure in
  `regexp_extract_udf` (here `regexp_extract_impl`) are translated
  directly from the Rust source.  The cache's `HashMap` is modelled as an
  association list (insertion only happens after a failed lookup, so
  append is equivalent to `HashMap::insert`), and `RegexCache.get`
  additionally reports how many times the regex compiler was invoked
  (0 on a cache hit, 1 on a miss), which makes the "no recompilation"
  claims directly statable.
* The external `regex` crate is not part of the repository; `compile`,
  `mrun`, `scan` and `Regex.captures` model it from the spec's
  description: leftmost-first matching (first start position scanning
  left to right, first alternative preferred, greedy repetition),
  capture groups numbered by their opening parenthesis with group 0 the
  implicit whole match, and `caps.len()` equal to the pattern's static
  group count plus one, with non-participating groups reported as absent.
-/

namespace RegexExtract

/-! ## Regex abstract syntax -/

/-- Item of a character class: a single character or an inclusive range. -/
inductive ClsItem where
  | single : Char → ClsItem
  | range : Char → Char → ClsItem
deriving DecidableEq, Repr

/-- Regex abstract syntax tree.  `group n r` is the `n`-th capturing
group (numbered from 1 in order of opening parenthesis). -/
inductive RE where
  | eps : RE
  | char : Char → RE
  | anyChar : RE
  | cls : Bool → List ClsItem → RE
  | seq : RE → RE → RE
  | alt : RE → RE → RE
  | star : RE → RE
  | group : Nat → RE → RE
deriving DecidableEq, Repr

/-- Size of a regex AST, used to pick a sufficient fuel for matching. -/
def RE.size : RE → Nat
  | .eps => 1
  | .char _ => 1
  | .anyChar => 1
  | .cls _ _ => 1
  | .seq a b => a.size + b.size + 1
  | .alt a b => a.size + b.size + 1
  | .star a => a.size + 1
  | .group _ a => a.size + 1

/-- Does a class item accept a character? -/
def ClsItem.test : ClsItem → Char → Bool
  | .single c, d => d = c
  | .range a b, d => decide (a ≤ d) && decide (d ≤ b)

/-- Does a (possibly negated) character class accept a character? -/
def clsMatches (neg : Bool) (items : List ClsItem) (d : Char) : Bool :=
  if neg then !(items.any (fun it => it.test d)) else items.any (fun it => it.test d)

/-! ## Pattern parser (modelling `Regex::new` of the external crate) -/

/-- Predefined class for `\d`. -/
def digitCls : List ClsItem := [.range '0' '9']

/-- Predefined class for `\w`. -/
def wordCls : List ClsItem :=
  [.range 'a' 'z', .range 'A' 'Z', .range '0' '9', .single '_']

/-- Predefined class for `\s`. -/
def spaceCls : List ClsItem :=
  [.single ' ', .single '\t', .single '\n', .single '\r',
   .single (Char.ofNat 11), .single (Char.ofNat 12)]

/-- Parse an escape sequence `\c` outside a character class. -/
def parseEscape (c : Char) : Except String RE :=
  if c = 'd' then .ok (.cls false digitCls)
  else if c = 'D' then .ok (.cls true digitCls)
  else if c = 'w' then .ok (.cls false wordCls)
  else if c = 'W' then .ok (.cls true wordCls)
  else if c = 's' then .ok (.cls false spaceCls)
  else if c = 'S' then .ok (.cls true spaceCls)
  else if c = 'n' then .ok (.char '\n')
  else if c = 't' then .ok (.char '\t')
  else if c = 'r' then .ok (.char '\r')
  else if c.isAlphanum then .error "unrecognized escape sequence"
  else .ok (.char c)

/-- One literal character inside a character class (resolving `\c`). -/
def classAtom : List Char → Except String (Char × List Char)
  | [] => .error "unclosed character class"
  | '\\' :: c :: rest => .ok (c, rest)
  | '\\' :: [] => .error "incomplete escape sequence"
  | c :: rest => .ok (c, rest)

/-- Parse the items of a character class up to the closing bracket. -/
def parseClassItems : Nat → List Char → Except String (List ClsItem × List Char)
  | 0, _ => .error "pattern too complex"
  | fuel + 1, cs =>
    match cs with
    | [] => .error "unclosed character class"
    | ']' :: rest => .ok ([], rest)
    | _ =>
      match classAtom cs with
      | .error e => .error e
      | .ok (c, rest) =>
        match rest with
        | '-' :: ']' :: rest2 => .ok ([.single c, .single '-'], rest2)
        | '-' :: r2 =>
          match classAtom r2 with
          | .error e => .error e
          | .ok (d, rest2) =>
            match parseClassItems fuel rest2 with
            | .error e => .error e
            | .ok (items, rest3) => .ok (.range c d :: items, rest3)
        | _ =>
          match parseClassItems fuel rest with
          | .error e => .error e
          | .ok (items, rest2) => .ok (.single c :: items, rest2)

/-- Parse a bracketed character class (after the opening bracket). -/
def parseClass (fuel : Nat) (cs : List Char) :
    Except String (RE × List Char) :=
  match cs with
  | '^' :: rest =>
    match parseClassItems fuel rest with
    | .error e => .error e
    | .ok (items, r) => .ok (.cls true items, r)
  | _ =>
    match parseClassItems fuel cs with
    | .error e => .error e
    | .ok (items, r) => .ok (.cls false items, r)

/-- Nonterminal of the pattern grammar currently being parsed. -/
inductive PMode where
  | palt : PMode
  | pconcat : PMode
  | prepeat : PMode
  | patom : PMode
deriving DecidableEq, Repr

/-- Recursive-descent parser for the pattern grammar, written as one
function with an explicit nonterminal so that recursion is structural on
the fuel.  The trailing `Nat` state is the next unused capture-group
number, incremented at each opening parenthesis. -/
def parseExp : Nat → PMode → List Char → Nat → Except String (RE × List Char × Nat)
  | 0, _, _, _ => .error "pattern too complex"
  | fuel + 1, mode, cs, g =>
    match mode with
    | .palt =>
      match parseExp fuel .pconcat cs g with
      | .error e => .error e
      | .ok (r, rest, g1) =>
        match rest with
        | '|' :: rest1 =>
          match parseExp fuel .palt rest1 g1 with
          | .error e => .error e
          | .ok (r2, rest2, g2) => .ok (.alt r r2, rest2, g2)
        | _ => .ok (r, rest, g1)
    | .pconcat =>
      match cs with
      | [] => .ok (.eps, [], g)
      | ')' :: _ => .ok (.eps, cs, g)
      | '|' :: _ => .ok (.eps, cs, g)
      | _ =>
        match parseExp fuel .prepeat cs g with
        | .error e => .error e
        | .ok (r, rest, g1) =>
          match parseExp fuel .pconcat rest g1 with
          | .error e => .error e
          | .ok (r2, rest1, g2) => .ok (.seq r r2, rest1, g2)
    | .prepeat =>
      match parseExp fuel .patom cs g with
      | .error e => .error e
      | .ok (r, rest, g1) =>
        match rest with
        | '*' :: rest1 => .ok (.star r, rest1, g1)
        | '+' :: rest1 => .ok (.seq r (.star r), rest1, g1)
        | '?' :: rest1 => .ok (.alt r .eps, rest1, g1)
        | _ => .ok (r, rest, g1)
    | .patom =>
      match cs with
      | [] => .error "unexpected end of pattern"
      | '(' :: rest =>
        match parseExp fuel .palt rest (g + 1) with
        | .error e => .error e
        | .ok (r, rest1, g1) =>
          match rest1 with
          | ')' :: rest2 => .ok (.group g r, rest2, g1)
          | _ => .error "unclosed group"
      | ')' :: _ => .error "unopened group"
      | '[' :: rest =>
        match parseClass fuel rest with
        | .error e => .error e
        | .ok (r, rest1) => .ok (r, rest1, g)
      | '\\' :: c :: rest =>
        match parseEscape c with
        | .error e => .error e
        | .ok r => .ok (r, rest, g)
      | '\\' :: [] => .error "incomplete escape sequence"
      | '.' :: rest => .ok (.anyChar, rest, g)
      | '*' :: _ => .error "repetition operator missing expression"
      | '+' :: _ => .error "repetition operator missing expression"
      | '?' :: _ => .error "repetition operator missing expression"
      | c :: rest => .ok (.char c, rest, g)

/-- Parse an alternation (the start symbol of the pattern grammar). -/
def parseAlt (fuel : Nat) (cs : List Char) (g : Nat) :
    Except String (RE × List Char × Nat) :=
  parseExp fuel .palt cs g

/-- Compiled regular expression: AST plus the number of capturing groups
(excluding the implicit group 0).  Mirrors the crate's `Regex`, whose
`captures(_).len()` is this count plus one. -/
structure Regex where
  ast : RE
  groups : Nat
deriving DecidableEq, Repr

/-- Compile a pattern string, modelling `Regex::new`: parse the whole
string, numbering capture groups from 1 in order of opening parenthesis. -/
def compile (p : String) : Except String Regex :=
  match parseAlt (8 * (p.length + 2)) p.data 1 with
  | .error e => .error e
  | .ok (r, [], g) => .ok ⟨r, g - 1⟩
  | .ok (_, ')' :: _, _) => .error "unopened group"
  | .ok (_, _, _) => .error "unexpected trailing characters"

/-! ## Matching engine (leftmost-first, greedy, with capture spans) -/

/-- Recorded capture spans: `(group number, start, stop)`, most recent
first. -/
abbrev Spans := List (Nat × Nat × Nat)

/-- Backtracking matcher.  `mrun fuel re s pos sp` returns all ways `re`
can match a prefix of `s` starting at `pos`, as `(end position, spans)`
pairs in backtracking priority order: the first element is the
leftmost-first choice (first alternative preferred, repetition greedy).
Fuel only rules out unproductive empty repetition steps; the top level
supplies enough fuel for every productive derivation. -/
def mrun : Nat → RE → List Char → Nat → Spans → List (Nat × Spans)
  | 0, _, _, _, _ => []
  | fuel + 1, re, s, pos, sp =>
    match re with
    | .eps => [(pos, sp)]
    | .char c =>
      match s.get? pos with
      | some d => if d = c then [(pos + 1, sp)] else []
      | none => []
    | .anyChar =>
      match s.get? pos with
      | some d => if d = '\n' then [] else [(pos + 1, sp)]
      | none => []
    | .cls neg items =>
      match s.get? pos with
      | some d => if clsMatches neg items d then [(pos + 1, sp)] else []
      | none => []
    | .seq a b =>
      (mrun fuel a s pos sp).flatMap (fun r => mrun fuel b s r.1 r.2)
    | .alt a b => mrun fuel a s pos sp ++ mrun fuel b s pos sp
    | .star a =>
      ((mrun fuel a s pos sp).flatMap
        (fun r => if r.1 = pos then [] else mrun fuel (.star a) s r.1 r.2))
      ++ [(pos, sp)]
    | .group n a =>
      (mrun fuel a s pos sp).map (fun r => (r.1, (n, pos, r.1) :: r.2))

/-- Fuel sufficient for any productive derivation of `ast` on `cs`. -/
def bigFuel (ast : RE) (cs : List Char) : Nat :=
  (cs.length + 1) * (ast.size + 1) + 1

/-- Scan start positions left to right (`pos`, `pos+1`, …) and return the
first position where the matcher succeeds, together with the
leftmost-first match's end position and capture spans.  `k` bounds the
number of positions still to try. -/
def scan (f : Nat) (ast : RE) (cs : List Char) : Nat → Nat → Option (Nat × Nat × Spans)
  | 0, _ => none
  | k + 1, pos =>
    match mrun f ast cs pos [] with
    | r :: _ => some (pos, r.1, r.2)
    | [] => scan f ast cs k (pos + 1)

/-- Extract the substring of `cs` from position `a` (inclusive) to `b`
(exclusive), exactly, with no trimming or case change. -/
def listExtract (cs : List Char) (a b : Nat) : String :=
  String.mk ((cs.drop a).take (b - a))

/-- Look up the recorded span of capture group `n` (most recent write
wins) and extract its substring; `none` when the group did not
participate in the match. -/
def lookupSpan (cs : List Char) (sp : Spans) (n : Nat) : Option String :=
  (sp.find? (fun x => x.1 = n)).map (fun x => listExtract cs x.2.1 x.2.2)

/-- Materialize a capture list from a match: entry 0 is the whole match,
entry `i` (1 ≤ i ≤ g) is group `i`'s captured substring or `none`.  The
list always has length `g + 1`, mirroring `Captures::len()`. -/
def materialize (cs : List Char) (g : Nat) (p e : Nat) (sp : Spans) :
    List (Option String) :=
  some (listExtract cs p e) ::
    (List.range g).map (fun i => lookupSpan cs sp (i + 1))

/-- Model of `Regex::captures`: find the leftmost-first match of `re` in
`s` and return its capture list, or `none` when the pattern does not
match anywhere in `s`. -/
def Regex.captures (re : Regex) (s : String) : Option (List (Option String)) :=
  match scan (bigFuel re.ast s.data) re.ast s.data (s.data.length + 1) 0 with
  | none => none
  | some (p, e, sp) => some (materialize s.data re.groups p e sp)

/-! ## The regex cache (`RegexCache` in `lib.rs`)

The `HashMap<String, Regex>` is modelled as an association list; the
code only inserts a key after looking it up and finding nothing, so
appending the new entry is equivalent to `HashMap::insert`.  `get`
additionally returns the number of times the regex compiler ran during
the call (0 on a hit, 1 on a miss). -/

/-- Cache state: the map from pattern source strings to compiled
patterns. -/
abbrev Cache := List (String × Regex)

/-- Lookup in the cache map (`guard.get(pattern)`). -/
def cacheLookup (c : Cache) (p : String) : Option Regex :=
  (c.find? (fun x => x.1 = p)).map (fun x => x.2)

/-- Translation of `RegexCache::get`: return the cached compiled pattern
on a hit; otherwise compile, store on success, and report an error naming
the pattern and the compiler diagnostic on failure.  The third component
counts compiler invocations. -/
def RegexCache.get (c : Cache) (p : String) :
    Except String Regex × Cache × Nat :=
  match cacheLookup c p with
  | some r => (.ok r, c, 0)
  | none =>
    match compile p with
    | .ok compiled => (.ok compiled, c ++ [(p, compiled)], 1)
    | .error e =>
      (.error ("Invalid regex pattern: " ++ p ++ ": " ++ e), c, 1)

/-- Run a sequence of `get` calls, threading the cache state. -/
def getMany (c : Cache) : List String → Cache
  | [] => c
  | p :: ps => getMany (RegexCache.get c p).2.1 ps

/-- Well-formed cache: every stored entry is the compiler's output for
its key.  This holds for every reachable cache state, since the cache
starts empty and `get` only stores what `compile` returned. -/
def WFCache (c : Cache) : Prop :=
  ∀ x ∈ c, compile x.1 = .ok x.2

/-- Events of one `RegexCache::get` call, in order. -/
inductive CacheEvent where
  | lockAcquire : CacheEvent
  | lookup : CacheEvent
  | compileRun : CacheEvent
  | insert : CacheEvent
  | lockRelease : CacheEvent
deriving DecidableEq, BEq, Repr

/-- Event trace of `RegexCache::get`, read off the Rust body: the mutex
is acquired first, the map is consulted, on a miss the compiler runs and
(on success) the result is inserted, and the mutex guard is dropped when
the function returns. -/
def RegexCache.getTrace (c : Cache) (p : String) : List CacheEvent :=
  [CacheEvent.lockAcquire, CacheEvent.lookup] ++
    (match cacheLookup c p with
     | some _ => []
     | none =>
       match compile p with
       | .ok _ => [CacheEvent.compileRun, CacheEvent.insert]
       | .error _ => [CacheEvent.compileRun]) ++
    [CacheEvent.lockRelease]

/-- Events of a trace that occur while the lock is held: everything
strictly between the acquisition and the release. -/
def underLock (tr : List CacheEvent) : List CacheEvent :=
  (((tr.dropWhile (fun e => e != CacheEvent.lockAcquire)).drop 1).takeWhile
    (fun e => e != CacheEvent.lockRelease))

/-! ## The UDF (`regexp_extract_udf` and `extract_one` in `lib.rs`) -/

/-- A scalar argument value (`datafusion_common::ScalarValue`): the code
distinguishes `Utf8(Some _)`, `Utf8(None)`, `Int64(Some _)`,
`Int64(None)` and everything else. -/
inductive ScalarValue where
  | utf8 : Option String → ScalarValue
  | int64 : Option Int → ScalarValue
  | other : ScalarValue
deriving DecidableEq, Repr

/-- A columnar array argument: a `StringArray` (list of optional rows) or
an array of any other type (which the downcast in the code rejects). -/
inductive ArrayValue where
  | utf8 : List (Option String) → ArrayValue
  | other : ArrayValue
deriving DecidableEq, Repr

/-- A columnar argument (`datafusion_expr::ColumnarValue`): a scalar or
an array. -/
inductive ColumnarValue where
  | scalar : ScalarValue → ColumnarValue
  | array : ArrayValue → ColumnarValue
deriving DecidableEq, Repr

/-- Translation of the `scalar_str` helper closure. -/
def scalar_str (v : ColumnarValue) (name : String) : Except String String :=
  match v with
  | .scalar (.utf8 (some x)) => .ok x
  | .scalar (.utf8 none) => .error (name ++ " must not be NULL")
  | .scalar _ => .error (name ++ " must be Utf8 scalar")
  | _ => .error (name ++ " must be a scalar in this implementation")

/-- Translation of the `scalar_i64` helper closure. -/
def scalar_i64 (v : ColumnarValue) (name : String) : Except String Int :=
  match v with
  | .scalar (.int64 (some x)) => .ok x
  | .scalar (.int64 none) => .error (name ++ " must not be NULL")
  | .scalar _ => .error (name ++ " must be Int64 scalar")
  | _ => .error (name ++ " must be a scalar in this implementation")

/-- Translation of `extract_one`: on a match, reject a group index not
below `caps.len()` (which is always the pattern's group count plus one),
otherwise return the captured substring, with `""` for a group that did
not participate; with no match anywhere, return `""`. -/
def extract_one (re : Regex) (s : String) (idx : Nat) : Except String String :=
  match re.captures s with
  | some caps =>
    if idx ≥ caps.length then
      .error ("regexp_extract group index " ++ toString idx ++
        " out of range; pattern has " ++ toString (caps.length - 1) ++ " groups")
    else .ok ((caps.getD idx none).getD "")
  | none => .ok ""

/-- Translation of the row loop in the UDF closure: null rows propagate
as nulls, other rows go through `extract_one`, and the first row error
aborts the whole batch. -/
def processRows (re : Regex) (idx : Nat) :
    List (Option String) → Except String (List (Option String))
  | [] => .ok []
  | none :: rest => (processRows re idx rest).map (fun out => none :: out)
  | some s :: rest =>
    match extract_one re s idx with
    | .error e => .error e
    | .ok v => (processRows re idx rest).map (fun out => some v :: out)

/-- Translation of the body of the closure in `regexp_extract_udf`,
with the shared cache state passed explicitly (the Rust closure captures
an `Arc<RegexCache>`): arity check, pattern and index scalar checks,
index sign check, pattern resolution through the cache, text array
check, then the row loop.  Returns the result, the cache state after the
call, and the number of regex-compiler invocations. -/
def regexp_extract_impl (cache : Cache) (args : List ColumnarValue) :
    Except String (List (Option String)) × Cache × Nat :=
  match args with
  | [s, pattern, idx] =>
    match scalar_str pattern "pattern" with
    | .error e => (.error e, cache, 0)
    | .ok pat =>
      match scalar_i64 idx "idx" with
      | .error e => (.error e, cache, 0)
      | .ok iv =>
        if iv < 0 then
          (.error ("regexp_extract group index must be non-negative, got "
            ++ toString iv), cache, 0)
        else
          match RegexCache.get cache pat with
          | (.error e, c1, n) => (.error e, c1, n)
          | (.ok re, c1, n) =>
            match s with
            | .array (.utf8 rows) => (processRows re iv.toNat rows, c1, n)
            | .array .other =>
              (.error "str must be a Utf8 array in this implementation", c1, n)
            | .scalar _ =>
              (.error "str must be an array in this implementation", c1, n)
  | _ =>
    (.error "regexp_extract expects 3 arguments: (str, pattern, idx)",
      cache, 0)

/-! ## Supporting lemmas -/

theorem cacheLookup_mem {c : Cache} {p : String} {r : Regex}
    (h : cacheLookup c p = some r) : (p, r) ∈ c := by
  unfold cacheLookup at h
  cases hf : List.find? (fun x => x.1 = p) c with
  | none => rw [hf] at h; exact Option.noConfusion h
  | some y =>
    rw [hf] at h
    have hy := List.mem_of_find?_eq_some hf
    have hp := List.find?_some hf
    simp only [decide_eq_true_eq] at hp
    have h2 : y.2 = r := Option.some.inj h
    have h3 : y = (p, r) := by
      have h4 : (y.1, y.2) = (p, r) := by rw [hp, h2]
      simpa using h4
    rwa [h3] at hy

theorem cacheLookup_append {c : Cache} {x : String × Regex} {k : String}
    {v : Regex} (h : cacheLookup c k = some v) :
    cacheLookup (c ++ [x]) k = some v := by
  unfold cacheLookup at h ⊢
  rw [List.find?_append]
  cases hf : List.find? (fun y => y.1 = k) c with
  | none => rw [hf] at h; simp at h
  | some y => rw [hf] at h; simpa using h

theorem WFCache_lookup {c : Cache} (hwf : WFCache c) {p : String} {r : Regex}
    (h : cacheLookup c p = some r) : compile p = .ok r :=
  hwf (p, r) (cacheLookup_mem h)

theorem WFCache_lookup_none {c : Cache} (hwf : WFCache c) {p e : String}
    (hbad : compile p = .error e) : cacheLookup c p = none := by
  cases hl : cacheLookup c p with
  | none => rfl
  | some r =>
    have := WFCache_lookup hwf hl
    rw [hbad] at this
    exact absurd this (by simp)

/-! ## Claim C5 -/

/-- Claim C5: a `get` on a pattern already in the cache returns the
stored compiled pattern, leaves the cache unchanged and does not invoke
the regex compiler (compiler-invocation count 0); moreover any single
`get`, and any sequence of `get` calls, preserves every entry already in
the mapping. -/
theorem C5_cache_hit_and_monotone :
    (∀ c p r, cacheLookup c p = some r → RegexCache.get c p = (.ok r, c, 0)) ∧
    (∀ c p k v, cacheLookup c k = some v →
      cacheLookup (RegexCache.get c p).2.1 k = some v) ∧
    (∀ c ps k v, cacheLookup c k = some v →
      cacheLookup (getMany c ps) k = some v) := by
  have h1 : ∀ c p r, cacheLookup c p = some r →
      RegexCache.get c p = (.ok r, c, 0) := by
    intro c p r h
    unfold RegexCache.get
    rw [h]
  have h2 : ∀ c p k v, cacheLookup c k = some v →
      cacheLookup (RegexCache.get c p).2.1 k = some v := by
    intro c p k v h
    unfold RegexCache.get
    cases hl : cacheLookup c p with
    | some r => exact h
    | none =>
      cases hc : compile p with
      | ok compiled => exact cacheLookup_append h
      | error e => exact h
  refine ⟨h1, h2, ?_⟩
  intro c ps
  induction ps generalizing c with
  | nil => intro k v h; exact h
  | cons p ps ih =>
    intro k v h
    exact ih _ k v (h2 c p k v h)

/-- Witness for C5: a concrete cache hit returns the stored pattern with
the cache unchanged and zero compiler invocations. -/
theorem C5_witness :
    RegexCache.get [("a", Regex.mk (RE.char 'a') 0)] "a" =
      (.ok (Regex.mk (RE.char 'a') 0), [("a", Regex.mk (RE.char 'a') 0)], 0) :=
  C5_cache_hit_and_monotone.1 _ _ _ rfl

/-! ## Claim C6 -/

/-- Claim C6: for a pattern that does not compile, `get` on a
well-formed cache (one whose every entry is the compiler's output for
its key, which holds for all reachable cache states) returns an error
naming the offending pattern and the compiler diagnostic, leaves the
cache mapping unchanged, and subsequent `get` calls behave exactly as
before the failed call. -/
theorem C6_invalid_pattern (c : Cache) (p e : String)
    (hwf : WFCache c) (hbad : compile p = .error e) :
    RegexCache.get c p =
      (.error ("Invalid regex pattern: " ++ p ++ ": " ++ e), c, 1) ∧
    (∀ q, RegexCache.get (RegexCache.get c p).2.1 q = RegexCache.get c q) := by
  have hnone : cacheLookup c p = none := WFCache_lookup_none hwf hbad
  have h1 : RegexCache.get c p =
      (.error ("Invalid regex pattern: " ++ p ++ ": " ++ e), c, 1) := by
    unfold RegexCache.get
    rw [hnone, hbad]
  exact ⟨h1, fun q => by rw [h1]⟩

/-- Witness for C6: the malformed pattern `(` fails with an error naming
the pattern and the diagnostic, and the empty cache is unchanged. -/
theorem C6_witness :
    RegexCache.get [] "(" =
      (.error "Invalid regex pattern: (: unclosed group", [], 1) :=
  (C6_invalid_pattern [] "(" "unclosed group"
    (fun x hx => absurd hx (List.not_mem_nil x)) rfl).1

/-! ## Claim C10 (corrected) -/

/-- Counterexample to claim C10 as stated: on a cache miss (here the
empty cache and pattern `a`) the compiler runs between the lock
acquisition and the lock release, i.e. the lock IS held across
compilation. -/
theorem C10_counterexample :
    CacheEvent.compileRun ∈ underLock (RegexCache.getTrace [] "a") := by
  have h : underLock (RegexCache.getTrace [] "a") =
      [CacheEvent.lookup, CacheEvent.compileRun, CacheEvent.insert] := rfl
  rw [h]
  simp

/-- Amended claim C10: the mutex is held for the whole of `get` — on a
hit nothing but the lookup happens under the lock (in particular no
compilation), but on a miss the pattern is compiled while the lock is
held, so a concurrent lookup of an already-cached pattern can serialize
behind another thread's in-progress compilation. -/
theorem C10_lock_held_across_compile :
    (∀ c p r, cacheLookup c p = some r →
      underLock (RegexCache.getTrace c p) = [CacheEvent.lookup]) ∧
    (∀ c p, cacheLookup c p = none →
      CacheEvent.compileRun ∈ underLock (RegexCache.getTrace c p)) := by
  constructor
  · intro c p r h
    unfold RegexCache.getTrace
    rw [h]
    rfl
  · intro c p h
    unfold RegexCache.getTrace
    rw [h]
    cases compile p with
    | ok r => exact List.mem_cons_of_mem _ (List.mem_cons_self _ _)
    | error e => exact List.mem_cons_of_mem _ (List.mem_cons_self _ _)

/-- Witness for the amended claim C10: on a concrete cache hit only the
lookup happens under the lock. -/
theorem C10_witness :
    underLock (RegexCache.getTrace [("a", Regex.mk (RE.char 'a') 0)] "a") =
      [CacheEvent.lookup] :=
  C10_lock_held_across_compile.1 _ _ (Regex.mk (RE.char 'a') 0) rfl

/-! ## Claim C7 -/

/-- Claim C7: a negative group index fails the invocation with the
non-negative-index error whose message names the offending value, before
any pattern compilation (compiler-invocation count 0, cache unchanged —
the pattern string is arbitrary and may not even compile) and before any
row processing (the text argument is arbitrary). -/
theorem C7_negative_index (cache : Cache) (t : ColumnarValue) (p : String)
    (n : Int) (hneg : n < 0) :
    regexp_extract_impl cache
      [t, .scalar (.utf8 (some p)), .scalar (.int64 (some n))] =
      (.error ("regexp_extract group index must be non-negative, got "
        ++ toString n), cache, 0) := by
  simp only [regexp_extract_impl, scalar_str, scalar_i64]
  rw [if_pos hneg]

/-- Witness for C7: index `-1` with the malformed pattern `(` and a
scalar text argument still reports the negative-index error naming
`-1`, with no compilation. -/
theorem C7_witness :
    regexp_extract_impl [] [.scalar .other, .scalar (.utf8 (some "(")),
      .scalar (.int64 (some (-1)))] =
      (.error "regexp_extract group index must be non-negative, got -1",
        [], 0) :=
  C7_negative_index [] (.scalar .other) "(" (-1) (by decide)

/-! ## Claim C4 (corrected) -/

/-- Counterexample to claim C4 as stated: with a text argument of
invalid shape (a scalar) and a pattern that is not a valid regular
expression, the reported error is the pattern-compilation error, not the
text-shape error — the code resolves the pattern through the cache
before inspecting the text argument. -/
theorem C4_counterexample :
    (regexp_extract_impl []
      [.scalar (.utf8 (some "abc")), .scalar (.utf8 (some "(")),
        .scalar (.int64 (some 1))]).1 =
      .error "Invalid regex pattern: (: unclosed group" ∧
    (regexp_extract_impl []
      [.scalar (.utf8 (some "abc")), .scalar (.utf8 (some "(")),
        .scalar (.int64 (some 1))]).1 ≠
      .error "str must be an array in this implementation" := by
  refine ⟨rfl, fun h => ?_⟩
  have h1 : (regexp_extract_impl []
      [.scalar (.utf8 (some "abc")), .scalar (.utf8 (some "(")),
        .scalar (.int64 (some 1))]).1 =
      .error "Invalid regex pattern: (: unclosed group" := rfl
  rw [h1] at h
  exact absurd (Except.error.inj h) (by decide)

/-- Amended claim C4: the validation checks run in the fixed order
arity, pattern shape, index shape, index sign, pattern compilation, text
shape, and the first failing check determines the reported error; in
particular, for an invocation whose text argument has an invalid shape
and whose pattern does not compile, the reported error is the
pattern-compilation error, not the text-shape error. -/
theorem C4_validation_order :
    (∀ cache args, args.length ≠ 3 →
      regexp_extract_impl cache args =
        (.error "regexp_extract expects 3 arguments: (str, pattern, idx)",
          cache, 0)) ∧
    (∀ cache t pv iv e, scalar_str pv "pattern" = .error e →
      regexp_extract_impl cache [t, pv, iv] = (.error e, cache, 0)) ∧
    (∀ cache t p iv e, scalar_i64 iv "idx" = .error e →
      regexp_extract_impl cache [t, .scalar (.utf8 (some p)), iv] =
        (.error e, cache, 0)) ∧
    (∀ cache t p n, n < 0 →
      regexp_extract_impl cache
        [t, .scalar (.utf8 (some p)), .scalar (.int64 (some n))] =
        (.error ("regexp_extract group index must be non-negative, got "
          ++ toString n), cache, 0)) ∧
    (∀ cache t p n e, ¬ n < 0 → (RegexCache.get cache p).1 = .error e →
      (regexp_extract_impl cache
        [t, .scalar (.utf8 (some p)), .scalar (.int64 (some n))]).1 =
        .error e) ∧
    (∀ cache sv p n re, ¬ n < 0 → (RegexCache.get cache p).1 = .ok re →
      (regexp_extract_impl cache
        [.scalar sv, .scalar (.utf8 (some p)),
          .scalar (.int64 (some n))]).1 =
        .error "str must be an array in this implementation") := by
  refine ⟨?_, ?_, ?_, ?_, ?_, ?_⟩
  · intro cache args h
    rcases args with _ | ⟨a, _ | ⟨b, _ | ⟨c, _ | ⟨d, tl⟩⟩⟩⟩
    · rfl
    · rfl
    · rfl
    · exact absurd rfl h
    · rfl
  · intro cache t pv iv e h
    simp only [regexp_extract_impl, h]
  · intro cache t p iv e h
    simp only [regexp_extract_impl, scalar_str, h]
  · intro cache t p n h
    simp only [regexp_extract_impl, scalar_str, scalar_i64]
    rw [if_pos h]
  · intro cache t p n e hn hget
    rcases hg : RegexCache.get cache p with ⟨res, c1, m⟩
    rw [hg] at hget
    simp only at hget
    subst hget
    simp only [regexp_extract_impl, scalar_str, scalar_i64]
    rw [if_neg hn, hg]
  · intro cache sv p n re hn hget
    rcases hg : RegexCache.get cache p with ⟨res, c1, m⟩
    rw [hg] at hget
    simp only at hget
    subst hget
    simp only [regexp_extract_impl, scalar_str, scalar_i64]
    rw [if_neg hn, hg]

/-- Witness for the amended claim C4: at a concrete invocation with a
scalar text argument and the malformed pattern `(`, the reported error
is the pattern-compilation error. -/
theorem C4_witness :
    (regexp_extract_impl []
      [.scalar (.utf8 (some "xyz")), .scalar (.utf8 (some "(")),
        .scalar (.int64 (some 2))]).1 =
      .error "Invalid regex pattern: (: unclosed group" :=
  C4_validation_order.2.2.2.2.1 [] (.scalar (.utf8 (some "xyz"))) "(" 2
    "Invalid regex pattern: (: unclosed group" (by decide) rfl

/-! ## Engine and row-loop lemmas -/

theorem materialize_length (cs : List Char) (g : Nat) (p e : Nat) (sp : Spans) :
    (materialize cs g p e sp).length = g + 1 := by
  simp [materialize]

theorem captures_length {re : Regex} {s : String} {caps : List (Option String)}
    (h : re.captures s = some caps) : caps.length = re.groups + 1 := by
  unfold Regex.captures at h
  cases hs : scan (bigFuel re.ast s.data) re.ast s.data (s.data.length + 1) 0 with
  | none => rw [hs] at h; exact Option.noConfusion h
  | some x =>
    obtain ⟨p, e, sp⟩ := x
    rw [hs] at h
    rw [← Option.some.inj h]
    exact materialize_length _ _ _ _ _

theorem captures_elim {re : Regex} {s : String} {caps : List (Option String)}
    (h : re.captures s = some caps) :
    ∃ p e sp,
      scan (bigFuel re.ast s.data) re.ast s.data (s.data.length + 1) 0 =
        some (p, e, sp) ∧
      caps = materialize s.data re.groups p e sp := by
  unfold Regex.captures at h
  cases hs : scan (bigFuel re.ast s.data) re.ast s.data (s.data.length + 1) 0 with
  | none => rw [hs] at h; exact Option.noConfusion h
  | some x =>
    obtain ⟨p, e, sp⟩ := x
    rw [hs] at h
    exact ⟨p, e, sp, rfl, (Option.some.inj h).symm⟩

theorem scan_some_spec {f : Nat} {ast : RE} {cs : List Char} :
    ∀ {k pos p e sp}, scan f ast cs k pos = some (p, e, sp) →
      pos ≤ p ∧ (∀ q, pos ≤ q → q < p → mrun f ast cs q [] = []) ∧
      ∃ t, mrun f ast cs p [] = (e, sp) :: t := by
  intro k
  induction k with
  | zero => intro pos p e sp h; exact Option.noConfusion h
  | succ k ih =>
    intro pos p e sp h
    simp only [scan] at h
    cases hm : mrun f ast cs pos [] with
    | cons r t =>
      rw [hm] at h
      have h1 := Option.some.inj h
      simp only [Prod.mk.injEq] at h1
      obtain ⟨rfl, rfl, rfl⟩ := h1
      refine ⟨Nat.le_refl _, ?_, ⟨t, by rw [hm]⟩⟩
      intro q hq1 hq2
      omega
    | nil =>
      rw [hm] at h
      obtain ⟨hle, hmid, ht⟩ := ih h
      refine ⟨by omega, ?_, ht⟩
      intro q hq1 hq2
      rcases Nat.eq_or_lt_of_le hq1 with heq | hlt
      · rw [← heq]; exact hm
      · exact hmid q hlt hq2

theorem extract_one_no_match {re : Regex} {s : String} {idx : Nat}
    (h : re.captures s = none) : extract_one re s idx = .ok "" := by
  unfold extract_one
  rw [h]

theorem extract_one_in_range {re : Regex} {s : String} {idx : Nat}
    {caps : List (Option String)} (h : re.captures s = some caps)
    (hlt : idx < caps.length) :
    extract_one re s idx = .ok ((caps.getD idx none).getD "") := by
  unfold extract_one
  simp only [h]
  rw [if_neg (by omega)]

theorem extract_one_out_of_range {re : Regex} {s : String} {idx : Nat}
    {caps : List (Option String)} (h : re.captures s = some caps)
    (hge : caps.length ≤ idx) :
    extract_one re s idx = .error ("regexp_extract group index " ++
      toString idx ++ " out of range; pattern has " ++
      toString (caps.length - 1) ++ " groups") := by
  unfold extract_one
  simp only [h]
  rw [if_pos (by omega)]

theorem processRows_ok_spec {re : Regex} {idx : Nat} :
    ∀ {rows out : List (Option String)},
      processRows re idx rows = .ok out →
      out.length = rows.length ∧
      (∀ i : Nat, (out[i]? = some none ↔ rows[i]? = some none)) ∧
      (∀ (i : Nat) (s : String), rows[i]? = some (some s) →
        ∃ v, extract_one re s idx = .ok v ∧ out[i]? = some (some v)) := by
  intro rows
  induction rows with
  | nil =>
    intro out h
    simp only [processRows] at h
    cases h
    exact ⟨rfl, fun i => by simp, fun i s hi => by simp at hi⟩
  | cons hd tl ih =>
    intro out h
    cases hd with
    | none =>
      simp only [processRows] at h
      cases hpr : processRows re idx tl with
      | error e => rw [hpr] at h; exact Except.noConfusion h
      | ok o =>
        rw [hpr] at h
        simp only [Except.map] at h
        cases h
        obtain ⟨hlen, hnull, hsome⟩ := ih hpr
        refine ⟨by simp [hlen], ?_, ?_⟩
        · intro i
          cases i with
          | zero => simp
          | succ j => simpa using hnull j
        · intro i s hi
          cases i with
          | zero => simp at hi
          | succ j =>
            obtain ⟨v, hv, ho⟩ := hsome j s (by simpa using hi)
            exact ⟨v, hv, by simpa using ho⟩
    | some s0 =>
      simp only [processRows] at h
      cases hex : extract_one re s0 idx with
      | error e => rw [hex] at h; exact Except.noConfusion h
      | ok v0 =>
        rw [hex] at h
        cases hpr : processRows re idx tl with
        | error e => rw [hpr] at h; exact Except.noConfusion h
        | ok o =>
          rw [hpr] at h
          simp only [Except.map] at h
          cases h
          obtain ⟨hlen, hnull, hsome⟩ := ih hpr
          refine ⟨by simp [hlen], ?_, ?_⟩
          · intro i
            cases i with
            | zero => simp
            | succ j => simpa using hnull j
          · intro i s hi
            cases i with
            | zero =>
              simp only [List.getElem?_cons_zero] at hi
              have hs : s0 = s := by
                injection hi with h1
                injection h1 with h2
              subst hs
              exact ⟨v0, hex, by simp⟩
            | succ j =>
              obtain ⟨v, hv, ho⟩ := hsome j s (by simpa using hi)
              exact ⟨v, hv, by simpa using ho⟩

theorem processRows_all_no_match {re : Regex} {idx : Nat} :
    ∀ {rows : List (Option String)},
      (∀ (i : Nat) (s : String), rows[i]? = some (some s) → re.captures s = none) →
      processRows re idx rows = .ok (rows.map (Option.map (fun _ => ""))) := by
  intro rows
  induction rows with
  | nil => intro h; rfl
  | cons hd tl ih =>
    intro h
    cases hd with
    | none =>
      have ht := ih (fun i s hi => h (i + 1) s (by simpa using hi))
      simp only [processRows, ht, Except.map, List.map_cons]
      rfl
    | some s =>
      have h0 : re.captures s = none := h 0 s (by simp)
      have ht := ih (fun i s2 hi => h (i + 1) s2 (by simpa using hi))
      simp only [processRows, extract_one_no_match h0, ht, Except.map,
        List.map_cons]
      rfl

theorem processRows_ok_of_le {re : Regex} {idx : Nat} (hidx : idx ≤ re.groups) :
    ∀ rows : List (Option String), ∃ out, processRows re idx rows = .ok out := by
  intro rows
  induction rows with
  | nil => exact ⟨[], rfl⟩
  | cons hd tl ih =>
    obtain ⟨o, ho⟩ := ih
    cases hd with
    | none => exact ⟨none :: o, by simp only [processRows, ho, Except.map]⟩
    | some s =>
      cases hct : re.captures s with
      | none =>
        exact ⟨some "" :: o,
          by simp only [processRows, extract_one_no_match hct, ho, Except.map]⟩
      | some caps =>
        have hlen := captures_length hct
        have hlt : idx < caps.length := by omega
        exact ⟨some ((caps.getD idx none).getD "") :: o,
          by simp only [processRows, extract_one_in_range hct hlt, ho,
            Except.map]⟩

theorem processRows_error_of_match {re : Regex} {idx : Nat}
    (hidx : re.groups + 1 ≤ idx) :
    ∀ {rows : List (Option String)} (i : Nat) (s : String),
      rows[i]? = some (some s) → re.captures s ≠ none →
      processRows re idx rows = .error
        ("regexp_extract group index " ++ toString idx ++
          " out of range; pattern has " ++ toString re.groups ++ " groups") := by
  intro rows
  induction rows with
  | nil => intro i s hi hnm; simp at hi
  | cons hd tl ih =>
    intro i s hi hnm
    cases hd with
    | none =>
      cases i with
      | zero => simp at hi
      | succ j =>
        have ht := ih j s (by simpa using hi) hnm
        simp only [processRows, ht, Except.map]
    | some t =>
      cases hct : re.captures t with
      | some caps =>
        have hlen := captures_length hct
        have hge : caps.length ≤ idx := by omega
        have hext := extract_one_out_of_range hct hge
        rw [hlen, Nat.add_sub_cancel] at hext
        simp only [processRows, hext]
      | none =>
        cases i with
        | zero =>
          simp only [List.getElem?_cons_zero] at hi
          have hs : t = s := by
            injection hi with h1
            injection h1 with h2
          rw [hs] at hct
          exact absurd hct hnm
        | succ j =>
          have ht := ih j s (by simpa using hi) hnm
          simp only [processRows, extract_one_no_match hct, ht, Except.map]

theorem impl_ok_elim {cache : Cache} {rows : List (Option String)}
    {pstr : String} {iv : Int} {out : List (Option String)} {c1 : Cache}
    {n : Nat}
    (h : regexp_extract_impl cache
      [.array (.utf8 rows), .scalar (.utf8 (some pstr)),
        .scalar (.int64 (some iv))] = (.ok out, c1, n)) :
    ¬ iv < 0 ∧ ∃ re, RegexCache.get cache pstr = (.ok re, c1, n) ∧
      processRows re iv.toNat rows = .ok out := by
  by_cases hneg : iv < 0
  · exfalso
    simp only [regexp_extract_impl, scalar_str, scalar_i64] at h
    rw [if_pos hneg] at h
    exact Except.noConfusion (congrArg Prod.fst h)
  · refine ⟨hneg, ?_⟩
    simp only [regexp_extract_impl, scalar_str, scalar_i64] at h
    rw [if_neg hneg] at h
    rcases hg : RegexCache.get cache pstr with ⟨res, cc, m⟩
    rw [hg] at h
    cases res with
    | error e => exact Except.noConfusion (congrArg Prod.fst h)
    | ok re =>
      have h1 : processRows re iv.toNat rows = .ok out := congrArg Prod.fst h
      have h2 : cc = c1 := congrArg (fun x => x.2.1) h
      have h3 : m = n := congrArg (fun x => x.2.2) h
      refine ⟨re, ?_, h1⟩
      rw [← h2, ← h3]

theorem impl_reaches_rows {cache : Cache} {pstr : String} {iv : Int}
    (rows : List (Option String)) {re : Regex}
    (hre : (RegexCache.get cache pstr).1 = .ok re) (hneg : ¬ iv < 0) :
    (regexp_extract_impl cache
      [.array (.utf8 rows), .scalar (.utf8 (some pstr)),
        .scalar (.int64 (some iv))]).1 = processRows re iv.toNat rows := by
  simp only [regexp_extract_impl, scalar_str, scalar_i64]
  rw [if_neg hneg]
  rcases hg : RegexCache.get cache pstr with ⟨res, cc, m⟩
  rw [hg] at hre
  cases res with
  | error e => exact Except.noConfusion hre
  | ok re2 =>
    have : re2 = re := Except.ok.inj hre
    rw [this]

theorem get_fst_eq_of_wf {c1 c2 : Cache} (h1 : WFCache c1) (h2 : WFCache c2)
    (p : String) : (RegexCache.get c1 p).1 = (RegexCache.get c2 p).1 := by
  unfold RegexCache.get
  cases hl1 : cacheLookup c1 p with
  | some r1 =>
    have hc1 := WFCache_lookup h1 hl1
    cases hl2 : cacheLookup c2 p with
    | some r2 =>
      have hc2 := WFCache_lookup h2 hl2
      rw [hc1] at hc2
      rw [Except.ok.inj hc2]
    | none => rw [hc1]
  | none =>
    cases hl2 : cacheLookup c2 p with
    | some r2 =>
      have hc2 := WFCache_lookup h2 hl2
      rw [hc2]
    | none =>
      cases hc : compile p with
      | ok r => rfl
      | error e => rfl

/-! ## Claim C1 -/

/-- Claim C1: for every invocation that passes validation (i.e. returns
an output column), the output column has the same length as the text
column, an output row is null iff the corresponding input row is null,
and every non-null row whose text the compiled pattern does not match
anywhere yields the empty string (never null). -/
theorem C1_output_shape (cache : Cache) (rows : List (Option String))
    (pstr : String) (iv : Int) (out : List (Option String)) (c1 : Cache)
    (n : Nat)
    (h : regexp_extract_impl cache
      [.array (.utf8 rows), .scalar (.utf8 (some pstr)),
        .scalar (.int64 (some iv))] = (.ok out, c1, n)) :
    out.length = rows.length ∧
    (∀ i : Nat, (out[i]? = some none ↔ rows[i]? = some none)) ∧
    (∀ re, (RegexCache.get cache pstr).1 = .ok re →
      ∀ (i : Nat) (s : String), rows[i]? = some (some s) →
        re.captures s = none → out[i]? = some (some "")) := by
  obtain ⟨hneg, re, hget, hpr⟩ := impl_ok_elim h
  obtain ⟨hlen, hnull, hsome⟩ := processRows_ok_spec hpr
  refine ⟨hlen, hnull, ?_⟩
  intro re2 hre2 i s hi hcap
  have hre : re2 = re := by
    rw [hget] at hre2
    exact (Except.ok.inj hre2).symm
  subst hre
  obtain ⟨v, hv, ho⟩ := hsome i s hi
  rw [extract_one_no_match hcap] at hv
  rw [← Except.ok.inj hv] at ho
  exact ho

/-- Witness for C1 (spec scenario D): text `["abc", null, "def"]`,
pattern `(a)`, index 1 gives a column of the same length, and the
non-matching row `"def"` yields the empty string. -/
theorem C1_witness :
    ([some "a", none, some ""] : List (Option String)).length =
      ([some "abc", none, some "def"] : List (Option String)).length ∧
    ([some "a", none, some ""] : List (Option String))[2]? =
      some (some "") := by
  have h := C1_output_shape [] [some "abc", none, some "def"] "(a)" 1
    [some "a", none, some ""]
    [("(a)", Regex.mk (RE.seq (RE.group 1 (RE.seq (RE.char 'a') RE.eps))
      RE.eps) 1)] 1 rfl
  exact ⟨h.1, h.2.2 _ rfl 2 "def" rfl rfl⟩

/-! ## Claim C2 -/

/-- Claim C2: for a validated invocation, a non-null row whose text the
pattern matches, and an in-range group index, the output row is exactly
the substring captured by that group of the leftmost-first match: the
capture list is materialized by exact span extraction (no trimming, no
case change) from the first matching start position (no earlier position
matches, and the first result at that position is taken), its entry 0 is
the full matched substring, and index 0 therefore yields the full
matched substring. -/
theorem C2_exact_capture (cache : Cache) (rows : List (Option String))
    (pstr : String) (iv : Int) (out : List (Option String)) (c1 : Cache)
    (n : Nat) (re : Regex) (i : Nat) (s : String)
    (caps : List (Option String))
    (h : regexp_extract_impl cache
      [.array (.utf8 rows), .scalar (.utf8 (some pstr)),
        .scalar (.int64 (some iv))] = (.ok out, c1, n))
    (hre : (RegexCache.get cache pstr).1 = .ok re)
    (hrow : rows[i]? = some (some s))
    (hcaps : re.captures s = some caps)
    (hidx : iv.toNat < caps.length) :
    out[i]? = some (some ((caps.getD iv.toNat none).getD "")) ∧
    ∃ p e sp,
      (∀ q : Nat, q < p → mrun (bigFuel re.ast s.data) re.ast s.data q [] = []) ∧
      (∃ t, mrun (bigFuel re.ast s.data) re.ast s.data p [] = (e, sp) :: t) ∧
      caps = materialize s.data re.groups p e sp ∧
      caps.getD 0 none = some (listExtract s.data p e) ∧
      (iv = 0 → out[i]? = some (some (listExtract s.data p e))) := by
  obtain ⟨hneg, re2, hget, hpr⟩ := impl_ok_elim h
  have hre2 : re2 = re := by
    rw [hget] at hre
    exact Except.ok.inj hre
  subst hre2
  obtain ⟨hlen, hnull, hsome⟩ := processRows_ok_spec hpr
  obtain ⟨v, hv, ho⟩ := hsome i s hrow
  rw [extract_one_in_range hcaps hidx] at hv
  rw [← Except.ok.inj hv] at ho
  obtain ⟨p, e, sp, hscan, hmat⟩ := captures_elim hcaps
  obtain ⟨hle, hleft, t, hmr⟩ := scan_some_spec hscan
  have hc0 : caps.getD 0 none = some (listExtract s.data p e) := by
    rw [hmat]
    simp [materialize]
  refine ⟨ho, p, e, sp, ?_, ⟨t, hmr⟩, hmat, hc0, ?_⟩
  · intro q hq
    exact hleft q (Nat.zero_le q) hq
  · intro h0
    subst h0
    rw [show (0 : Int).toNat = 0 from rfl, hc0] at ho
    simpa using ho

/-- Witness for C2 (spec scenario B): pattern `(ab)(cd)` on
`"xxabcdyy"` with index 0 yields the full matched substring `"abcd"`. -/
theorem C2_witness :
    ([some "abcd"] : List (Option String))[0]? = some (some "abcd") := by
  have h := C2_exact_capture [] [some "xxabcdyy"] "(ab)(cd)" 0
    [some "abcd"]
    [("(ab)(cd)", Regex.mk (RE.seq
      (RE.group 1 (RE.seq (RE.char 'a') (RE.seq (RE.char 'b') RE.eps)))
      (RE.seq (RE.group 2 (RE.seq (RE.char 'c')
        (RE.seq (RE.char 'd') RE.eps))) RE.eps)) 2)] 1
    (Regex.mk (RE.seq
      (RE.group 1 (RE.seq (RE.char 'a') (RE.seq (RE.char 'b') RE.eps)))
      (RE.seq (RE.group 2 (RE.seq (RE.char 'c')
        (RE.seq (RE.char 'd') RE.eps))) RE.eps)) 2)
    0 "xxabcdyy" [some "abcd", some "ab", some "cd"]
    rfl rfl rfl rfl (by decide)
  exact h.1

/-! ## Claim C3 -/

/-- Claim C3: for a resolved pattern with `g` capturing groups and a
text column containing at least one matching non-null row, group index
`g + 1` fails the entire invocation with the out-of-range error naming
the requested index and the pattern's group count, while group index `g`
succeeds, returning the empty string for any matching row where group
`g` did not participate. -/
theorem C3_group_boundary (cache : Cache) (rows : List (Option String))
    (pstr : String) (g : Nat) (re : Regex)
    (hre : (RegexCache.get cache pstr).1 = .ok re)
    (hg : re.groups = g)
    (hmatch : ∃ (i : Nat) (s : String), rows[i]? = some (some s) ∧
      re.captures s ≠ none) :
    (regexp_extract_impl cache
      [.array (.utf8 rows), .scalar (.utf8 (some pstr)),
        .scalar (.int64 (some ((g : Int) + 1)))]).1 =
      .error ("regexp_extract group index " ++ toString (g + 1) ++
        " out of range; pattern has " ++ toString g ++ " groups") ∧
    ∃ out, (regexp_extract_impl cache
        [.array (.utf8 rows), .scalar (.utf8 (some pstr)),
          .scalar (.int64 (some (g : Int)))]).1 = .ok out ∧
      ∀ (i : Nat) (s : String) (caps : List (Option String)),
        rows[i]? = some (some s) → re.captures s = some caps →
        caps.getD g none = none → out[i]? = some (some "") := by
  constructor
  · have hneg : ¬ ((g : Int) + 1) < 0 := by omega
    rw [impl_reaches_rows rows hre hneg]
    have htn : ((g : Int) + 1).toNat = g + 1 := by omega
    rw [htn]
    obtain ⟨i, s, hi, hnm⟩ := hmatch
    have hb : re.groups + 1 ≤ g + 1 := by omega
    have hstep := processRows_error_of_match hb i s hi hnm
    rw [hstep, hg]
  · have hneg : ¬ (g : Int) < 0 := by omega
    have htn : ((g : Int)).toNat = g := by omega
    rw [impl_reaches_rows rows hre hneg, htn]
    have hb2 : g ≤ re.groups := by omega
    obtain ⟨out, hout⟩ := processRows_ok_of_le hb2 rows
    refine ⟨out, hout, ?_⟩
    intro i s caps hi hcaps hmiss
    obtain ⟨hlen, hnull, hsome⟩ := processRows_ok_spec hout
    obtain ⟨v, hv, ho⟩ := hsome i s hi
    have hlt : g < caps.length := by
      have := captures_length hcaps
      omega
    rw [extract_one_in_range hcaps hlt, hmiss] at hv
    rw [← Except.ok.inj hv] at ho
    exact ho

/-- Witness for C3: pattern `(a)` (one group) on a matching row fails at
index 2 with the error naming index 2 and group count 1. -/
theorem C3_witness :
    (regexp_extract_impl [] [.array (.utf8 [some "abc"]),
      .scalar (.utf8 (some "(a)")), .scalar (.int64 (some 2))]).1 =
      .error "regexp_extract group index 2 out of range; pattern has 1 groups" :=
  (C3_group_boundary [] [some "abc"] "(a)" 1
    (Regex.mk (RE.seq (RE.group 1 (RE.seq (RE.char 'a') RE.eps)) RE.eps) 1)
    rfl rfl ⟨0, "abc", rfl, by decide⟩).1

/-! ## Claim C9 -/

/-- Claim C9: with a valid pattern and a group index exceeding the
pattern's capture-group count, if no non-null row matches then the
invocation succeeds — every non-null output row is the empty string and
null rows stay null — rather than failing with the out-of-range error;
the out-of-range condition is only detected when some row matches, in
which case the invocation fails. -/
theorem C9_oob_only_on_match (cache : Cache) (rows : List (Option String))
    (pstr : String) (iv : Int) (re : Regex)
    (hre : (RegexCache.get cache pstr).1 = .ok re)
    (hneg : ¬ iv < 0)
    (hgt : re.groups < iv.toNat) :
    ((∀ (i : Nat) (s : String), rows[i]? = some (some s) →
        re.captures s = none) →
      (regexp_extract_impl cache
        [.array (.utf8 rows), .scalar (.utf8 (some pstr)),
          .scalar (.int64 (some iv))]).1 =
        .ok (rows.map (Option.map (fun _ => "")))) ∧
    ((∃ (i : Nat) (s : String), rows[i]? = some (some s) ∧
        re.captures s ≠ none) →
      (regexp_extract_impl cache
        [.array (.utf8 rows), .scalar (.utf8 (some pstr)),
          .scalar (.int64 (some iv))]).1 =
        .error ("regexp_extract group index " ++ toString iv.toNat ++
          " out of range; pattern has " ++ toString re.groups ++
          " groups")) := by
  rw [impl_reaches_rows rows hre hneg]
  constructor
  · intro hnm
    exact processRows_all_no_match hnm
  · rintro ⟨i, s, hi, hnm⟩
    have hb : re.groups + 1 ≤ iv.toNat := by omega
    exact processRows_error_of_match hb i s hi hnm

/-- Witness for C9: pattern `(a)` (one group) with index 5 on a column
with no matching row succeeds, mapping the non-null row to `""` and
keeping the null row null. -/
theorem C9_witness :
    (regexp_extract_impl [] [.array (.utf8 [some "xyz", none]),
      .scalar (.utf8 (some "(a)")), .scalar (.int64 (some 5))]).1 =
      .ok [some "", none] := by
  have hnm : ∀ (i : Nat) (s : String),
      ([some "xyz", none] : List (Option String))[i]? = some (some s) →
      (Regex.mk (RE.seq (RE.group 1 (RE.seq (RE.char 'a') RE.eps))
        RE.eps) 1).captures s = none := by
    intro i s hi
    match i with
    | 0 =>
      injection hi with h1
      injection h1 with h2
      rw [← h2]
      rfl
    | 1 =>
      injection hi with h1
      exact Option.noConfusion h1
    | (j + 2) => exact Option.noConfusion hi
  exact (C9_oob_only_on_match [] [some "xyz", none] "(a)" 5
    (Regex.mk (RE.seq (RE.group 1 (RE.seq (RE.char 'a') RE.eps)) RE.eps) 1)
    rfl (by decide) (by decide)).1 hnm

/-! ## Claim C8 -/

/-- Claim C8: the function is deterministic — two invocations with
identical arguments, run against any two well-formed cache states (every
entry is the compiler's output for its key, which holds for every
reachable cache state since the cache starts empty and only stores
compiler output), produce identical results: the same error, or
identical output columns with identical null positions. -/
theorem C8_deterministic (c1 c2 : Cache) (args : List ColumnarValue)
    (h1 : WFCache c1) (h2 : WFCache c2) :
    (regexp_extract_impl c1 args).1 = (regexp_extract_impl c2 args).1 := by
  rcases args with _ | ⟨s, _ | ⟨pv, _ | ⟨iv, _ | ⟨d, tl⟩⟩⟩⟩
  · rfl
  · rfl
  · rfl
  · simp only [regexp_extract_impl]
    cases hps : scalar_str pv "pattern" with
    | error e => rfl
    | ok pat =>
      cases his : scalar_i64 iv "idx" with
      | error e => rfl
      | ok nn =>
        by_cases hneg : nn < 0
        · simp only [if_pos hneg]
        · simp only [if_neg hneg]
          have hg := get_fst_eq_of_wf h1 h2 pat
          rcases hg1 : RegexCache.get c1 pat with ⟨r1, cc1, m1⟩
          rcases hg2 : RegexCache.get c2 pat with ⟨r2, cc2, m2⟩
          rw [hg1, hg2] at hg
          have hg3 : r1 = r2 := hg
          subst hg3
          cases r1 with
          | error e => rfl
          | ok re =>
            cases s with
            | scalar sv => rfl
            | array a =>
              cases a with
              | utf8 rows => rfl
              | other => rfl
  · rfl

/-- Witness for C8: the same invocation run against the empty cache and
against a well-formed cache already holding a different pattern returns
identical results. -/
theorem C8_witness :
    (regexp_extract_impl [] [.array (.utf8 [some "abc"]),
      .scalar (.utf8 (some "(a)")), .scalar (.int64 (some 1))]).1 =
    (regexp_extract_impl
      [("(b)", Regex.mk (RE.seq (RE.group 1 (RE.seq (RE.char 'b') RE.eps))
        RE.eps) 1)]
      [.array (.utf8 [some "abc"]),
        .scalar (.utf8 (some "(a)")), .scalar (.int64 (some 1))]).1 := by
  apply C8_deterministic
  · intro x hx
    exact absurd hx (List.not_mem_nil x)
  · intro x hx
    rw [List.mem_singleton] at hx
    subst hx
    rfl

end RegexExtract
